import Mathlib

/-!
Verification of the trace-reconstruction engine and playback scheduler in
`static/js/index.js`. The JavaScript functions `generateAlgorithmSteps`,
`startAnimation`, `formatPriorityQueue` and the per-tick interval handler are
shallowly embedded below: JS objects become association lists / functions into
`Option`, JS `x || d` on numbers becomes `jsOrInt` (replacing both a missing
value and a zero value, since `0` is falsy), JS `Array.shift` becomes
`List.tail`, JS `Array.pop` becomes `List.dropLast`, a JS `Set` becomes an
insertion-ordered duplicate-free list, and the JS stable `Array.sort` with
comparator `a[3] - b[3]` becomes a stable insertion sort on the f field.
Narration lines are kept as structured `StepLine` values; `renderLine` produces
exactly the strings the source pushes into `algorithmSteps`.
-/

abbrev NodeId := String

/-- `mazeGraph`: a JS object mapping a node id to an object mapping neighbor
ids to (possibly absent) numeric edge weights. `none` models a node id absent
from the object. -/
abbrev Graph := NodeId → Option (List (NodeId × Option Int))

/-- `heuristic`: a JS object mapping node ids to numbers; `none` models a
missing entry (a JS `undefined` lookup). -/
abbrev Heur := NodeId → Option Int

/-- `Object.keys(mazeGraph[node] || {})` (source lines 247, 289, 344). -/
def jsKeys (g : Graph) (n : NodeId) : List NodeId :=
  ((g n).getD []).map Prod.fst

/-- `mazeGraph[node][neighbor]` (source line 351): lookup of a neighbor's raw
weight, `none` when absent. -/
def jsWeight (g : Graph) (n m : NodeId) : Option Int :=
  (((g n).getD []).lookup m).join

/-- JS `x || d` for a number-or-undefined `x`: `undefined` and `0` are falsy,
so both are replaced by the default (source lines 324, 351, 353). -/
def jsOrInt (o : Option Int) (d : Int) : Int :=
  match o with
  | none => d
  | some v => if v = 0 then d else v

/-- `Set.prototype.add` on a set modelled as an insertion-ordered list. -/
def visitedAdd (v : List NodeId) (n : NodeId) : List NodeId :=
  if v.contains n then v else v ++ [n]

/-- One narration line of `algorithmSteps`, kept structured; `renderLine`
recovers the exact source string. -/
inductive StepLine where
  | initQueue : StepLine
  | initStack : StepLine
  | initPQ (h : Option Int) : StepLine
  | dequeue (sc : Nat) (node : NodeId) : StepLine
  | popLine (sc : Nat) (node : NodeId) : StepLine
  | removeMin (sc : Nat) (node : NodeId) : StepLine
  | addQueue (sc : Nat) (node : NodeId) (ns : List NodeId) : StepLine
  | addStack (sc : Nat) (node : NodeId) (ns : List NodeId) : StepLine
  | evalNeighbors (sc : Nat) (node : NodeId) (ns : List NodeId) : StepLine
  | calcLine (node : NodeId) (gv hv fv : Int) : StepLine
  | goal (sc : Nat) : StepLine
  | finalPath (path : List NodeId) : StepLine
  | pathLen (n : Nat) : StepLine
  | exploredTotal (n : Nat) : StepLine
deriving DecidableEq

/-- JS rendering of a number-or-undefined value. -/
def optIntStr : Option Int → String
  | none => "undefined"
  | some v => toString v

/-- The exact strings the source pushes into `algorithmSteps`. -/
def renderLine : StepLine → String
  | .initQueue => "Step 0: Initialize queue with start node A"
  | .initStack => "Step 0: Initialize stack with start node A"
  | .initPQ h =>
      "Step 0: Initialize priority queue with A (g=0, h=" ++ optIntStr h ++
        ", f=" ++ optIntStr h ++ ")"
  | .dequeue sc n => "Step " ++ toString sc ++ ": Dequeue node " ++ n
  | .popLine sc n => "Step " ++ toString sc ++ ": Pop node " ++ n ++ " from stack"
  | .removeMin sc n =>
      "Step " ++ toString sc ++ ": Remove node " ++ n ++
        " with lowest f-value from priority queue"
  | .addQueue sc n ns =>
      "Step " ++ toString sc ++ ": Add neighbors of " ++ n ++ " to queue: " ++
        String.intercalate ", " ns
  | .addStack sc n ns =>
      "Step " ++ toString sc ++ ": Add neighbors of " ++ n ++ " to stack: " ++
        String.intercalate ", " ns
  | .evalNeighbors sc n ns =>
      "Step " ++ toString sc ++ ": Evaluate neighbors of " ++ n ++ ": " ++
        String.intercalate ", " ns
  | .calcLine n gv hv fv =>
      "    Calculate for " ++ n ++ ": g=" ++ toString gv ++ ", h=" ++
        toString hv ++ ", f=" ++ toString fv
  | .goal sc => "Step " ++ toString sc ++ ": Goal reached at node B!"
  | .finalPath p => "\nFinal path found: " ++ String.intercalate " → " p
  | .pathLen n => "Path length: " ++ toString n ++ " nodes"
  | .exploredTotal n => "Total nodes explored: " ++ toString n ++ " nodes"

/-- Shared loop state for the BFS and DFS reconstructions: the frontier
(`queue`/`stack`), the `visited` set, `algorithmSteps`, `dataStructureSteps`
and `stepCount`. -/
structure SimState where
  frontier : List NodeId
  visited : List NodeId
  steps : List StepLine
  snaps : List (List NodeId)
  stepCount : Nat
deriving DecidableEq

/-- Appending the "Goal reached at node B!" narration (source lines 262,
305, 339). -/
def simGoal (s : SimState) : SimState :=
  { s with steps := s.steps ++ [.goal s.stepCount] }

/-- The BFS dequeue sub-step (source lines 239-243): narrate the pop, remove
the first queue element, snapshot. -/
def bfsPop (node : NodeId) (s : SimState) : SimState :=
  { s with steps := s.steps ++ [.dequeue s.stepCount node],
           frontier := s.frontier.tail,
           snaps := s.snaps ++ [s.frontier.tail],
           stepCount := s.stepCount + 1 }

/-- The BFS expansion sub-step (source lines 247-258): filter the node's
neighbors to the unvisited ones and, when there are any, narrate, mark each
visited, enqueue each, and snapshot. -/
def bfsExpand (g : Graph) (node : NodeId) (s1 : SimState) : SimState :=
  let ns := (jsKeys g node).filter (fun m => !(s1.visited.contains m))
  if ns.isEmpty then s1 else
    { s1 with steps := s1.steps ++ [.addQueue s1.stepCount node ns],
              visited := List.foldl visitedAdd s1.visited ns,
              frontier := s1.frontier ++ ns,
              snaps := s1.snaps ++ [s1.frontier ++ ns],
              stepCount := s1.stepCount + 1 }

/-- The BFS branch of `generateAlgorithmSteps` (source lines 224-265);
`isFirst` is true exactly for loop index `i = 0`. -/
def bfsLoop (g : Graph) (isFirst : Bool) (s : SimState) : List NodeId → SimState
  | [] => s
  | node :: rest =>
    let s2 := bfsExpand g node (if isFirst then s else bfsPop node s)
    if node == "B" then simGoal s2
    else bfsLoop g false s2 rest

/-- Initial BFS state: `queue = ['A']`, `visited = {'A'}`, the initialize
narration and the initial snapshot. -/
def bfsInit : SimState :=
  ⟨["A"], ["A"], [.initQueue], [["A"]], 1⟩

def bfsRun (g : Graph) (explored : List NodeId) : SimState :=
  bfsLoop g true bfsInit explored

/-- The DFS pop sub-step (source lines 281-285): narrate the pop, remove the
LAST stack element (`Array.pop`), snapshot. -/
def dfsPop (node : NodeId) (s : SimState) : SimState :=
  { s with steps := s.steps ++ [.popLine s.stepCount node],
           frontier := s.frontier.dropLast,
           snaps := s.snaps ++ [s.frontier.dropLast],
           stepCount := s.stepCount + 1 }

/-- The DFS expansion sub-step (source lines 289-301): like BFS but the
filtered neighbor list is reversed before pushing. -/
def dfsExpand (g : Graph) (node : NodeId) (s1 : SimState) : SimState :=
  let ns := ((jsKeys g node).filter (fun m => !(s1.visited.contains m))).reverse
  if ns.isEmpty then s1 else
    { s1 with steps := s1.steps ++ [.addStack s1.stepCount node ns],
              visited := List.foldl visitedAdd s1.visited ns,
              frontier := s1.frontier ++ ns,
              snaps := s1.snaps ++ [s1.frontier ++ ns],
              stepCount := s1.stepCount + 1 }

/-- The DFS branch of `generateAlgorithmSteps` (source lines 266-308). -/
def dfsLoop (g : Graph) (isFirst : Bool) (s : SimState) : List NodeId → SimState
  | [] => s
  | node :: rest =>
    let s2 := dfsExpand g node (if isFirst then s else dfsPop node s)
    if node == "B" then simGoal s2
    else dfsLoop g false s2 rest

def dfsInit : SimState :=
  ⟨["A"], ["A"], [.initStack], [["A"]], 1⟩

def dfsRun (g : Graph) (explored : List NodeId) : SimState :=
  dfsLoop g true dfsInit explored

/-- One entry `[node, g, h, f]` of the simulated A* priority queue. The `h`
and `f` fields are `Option Int` because the initial entry stores the raw
`heuristic['A']` lookup, which is `undefined` when the table has no entry for
the start node. -/
structure PQEntry where
  node : NodeId
  gv : Int
  hv : Option Int
  fv : Option Int
deriving DecidableEq

/-- The comparator `(a, b) => a[3] - b[3]` interpreted as a boolean "a may
stay before b": for two numeric f-values this is `≤`; when either side is
`undefined` the subtraction is NaN, which the JS sort treats as `0`
(elements compare equal). -/
def fLe (a b : Option Int) : Bool :=
  match a, b with
  | some x, some y => x ≤ y
  | _, _ => true

/-- Stable insertion of one entry into a list: the entry goes before the
first element it is strictly below, and after all elements it ties with. -/
def insertByF (x : PQEntry) : List PQEntry → List PQEntry
  | [] => [x]
  | y :: ys => if fLe x.fv y.fv then x :: y :: ys else y :: insertByF x ys

/-- `priorityQueue.sort((a, b) => a[3] - b[3])` (source line 363): a stable
sort by f-value, modelled as insertion sort (stable sorts agree whenever the
comparator is consistent, i.e. all f-values are numeric). -/
def sortByF (l : List PQEntry) : List PQEntry :=
  List.foldr insertByF [] l

/-- `formatPriorityQueue` (source lines 380-387). -/
def formatPriorityQueue (q : List PQEntry) : List String :=
  q.map (fun e => e.node ++ "(f=" ++ optIntStr e.fv ++ ")")

/-- Loop state of the A* branch. Snapshots are kept as raw entry lists; the
source formats them at push time, which is the same as mapping
`formatPriorityQueue` over the recorded lists afterwards. -/
structure AStarState where
  pq : List PQEntry
  gScores : List (NodeId × Int)
  visited : List NodeId
  steps : List StepLine
  snaps : List (List PQEntry)
  stepCount : Nat
deriving DecidableEq

/-- The body of the inner neighbor loop of the A* branch (source lines
350-364): compute the tentative g, and on improvement record it, narrate the
calculation, and push-and-sort the queue entry. -/
def astarRelax (g : Graph) (h : Heur) (node : NodeId) (currentG : Int)
    (s : AStarState) (n : NodeId) : AStarState :=
  let edgeCost := jsOrInt (jsWeight g node n) 1
  let newG := currentG + edgeCost
  let hh := jsOrInt (h n) 0
  let f := newG + hh
  let better := match s.gScores.lookup n with
    | none => true
    | some old => decide (newG < old)
  if better then
    { s with gScores := (n, newG) :: s.gScores,
             steps := s.steps ++ [.calcLine n newG hh f],
             pq := sortByF (s.pq ++ [⟨n, newG, some hh, some f⟩]) }
  else s

/-- The A* pop sub-step (source lines 330-334): narrate the removal of the
minimum-f node, shift the sorted queue, snapshot. -/
def astarPop (node : NodeId) (s : AStarState) : AStarState :=
  { s with steps := s.steps ++ [.removeMin s.stepCount node],
           pq := s.pq.tail,
           snaps := s.snaps ++ [s.pq.tail],
           stepCount := s.stepCount + 1 }

/-- Appending the A* goal narration (source line 339). -/
def astarGoal (s : AStarState) : AStarState :=
  { s with steps := s.steps ++ [.goal s.stepCount] }

/-- The A* expansion sub-step (source lines 344-369): when the node has
unvisited neighbors, narrate the evaluation, relax each neighbor in order,
then snapshot the (possibly updated) queue. -/
def astarExpand (g : Graph) (h : Heur) (node : NodeId) (currentG : Int)
    (s1 : AStarState) : AStarState :=
  let unvisited := (jsKeys g node).filter (fun m => !(s1.visited.contains m))
  if unvisited.isEmpty then s1 else
    let s2 : AStarState :=
      { s1 with steps := s1.steps ++ [.evalNeighbors s1.stepCount node unvisited] }
    let s3 := List.foldl (astarRelax g h node currentG) s2 unvisited
    { s3 with snaps := s3.snaps ++ [s3.pq], stepCount := s3.stepCount + 1 }

/-- The A* branch of `generateAlgorithmSteps` (source lines 309-371): the
popped node is added to `visited` at the top of each iteration (line 327),
the goal test precedes neighbor expansion, and the pop removes the first
(minimum-f) element. -/
def astarLoop (g : Graph) (h : Heur) (isFirst : Bool) (s : AStarState) :
    List NodeId → AStarState
  | [] => s
  | node :: rest =>
    let currentG := jsOrInt (s.gScores.lookup node) 0
    let s0 : AStarState := { s with visited := visitedAdd s.visited node }
    let s1 := if isFirst then s0 else astarPop node s0
    if node == "B" then astarGoal s1
    else astarLoop g h false (astarExpand g h node currentG s1) rest

/-- Initial A* state (source lines 314-320): the queue holds
`['A', 0, heuristic['A'], heuristic['A']]` with the raw (undefaulted)
heuristic lookup; `visited` starts empty; `gScores = { A: 0 }`. -/
def astarInit (h : Heur) : AStarState :=
  ⟨[⟨"A", 0, h "A", h "A"⟩], [("A", 0)], [], [.initPQ (h "A")],
    [[⟨"A", 0, h "A", h "A"⟩]], 1⟩

def astarRun (g : Graph) (h : Heur) (explored : List NodeId) : AStarState :=
  astarLoop g h true (astarInit h) explored

/-- `generateAlgorithmSteps(algorithm, explored, path)` (source lines
218-377): pick the policy by the algorithm string (any other string produces
no trace), then append the three final summary lines. Returns
(`algorithmSteps`, `dataStructureSteps`). -/
def generateAlgorithmSteps (alg : String) (g : Graph) (h : Heur)
    (explored path : List NodeId) : List StepLine × List (List String) :=
  let core : List StepLine × List (List String) :=
    if alg == "bfs" then ((bfsRun g explored).steps, (bfsRun g explored).snaps)
    else if alg == "dfs" then ((dfsRun g explored).steps, (dfsRun g explored).snaps)
    else if alg == "astar" then
      ((astarRun g h explored).steps,
        (astarRun g h explored).snaps.map formatPriorityQueue)
    else ([], [])
  (core.1 ++ [.finalPath path, .pathLen path.length, .exploredTotal explored.length],
    core.2)

/-- Playback scheduler state: `currentAnimationStep` and whether
`animationInterval` is non-null (a repeating timer is pending). -/
structure AnimState where
  stepIdx : Nat
  running : Bool
deriving DecidableEq

/-- One rendering instruction emitted to the DOM adapter during a tick. -/
inductive Instr where
  | highlight (node : NodeId) (cls : String) : Instr
  | moveToken (node : NodeId) : Instr
  | showStep (n : Nat) : Instr
deriving DecidableEq

/-- The `setInterval` callback of `startAnimation` (source lines 183-203):
exploration phase, then path phase (which also moves the robot token), then
clear the interval. A tick on a cleared interval never fires, modelled as an
emission-free identity. -/
def tick (explored path : List NodeId) (s : AnimState) : AnimState × List Instr :=
  if s.running = false then (s, [])
  else if s.stepIdx < explored.length then
    let node := explored.getD s.stepIdx ""
    ({ s with stepIdx := s.stepIdx + 1 },
      [.highlight node "visited", .showStep s.stepIdx])
  else if s.stepIdx < explored.length + path.length then
    let node := path.getD (s.stepIdx - explored.length) ""
    ({ s with stepIdx := s.stepIdx + 1 },
      [.highlight node "in-path", .moveToken node, .showStep s.stepIdx])
  else ({ s with running := false }, [])

/-- Scheduler state after `n` ticks of a fresh `startAnimation` run
(`currentAnimationStep = 0`, interval set). -/
def stateAfter (explored path : List NodeId) : Nat → AnimState
  | 0 => ⟨0, true⟩
  | n + 1 => (tick explored path (stateAfter explored path n)).1

/-- Instructions emitted by tick number `n` (0-based). -/
def instrsAt (explored path : List NodeId) (n : Nat) : List Instr :=
  (tick explored path (stateAfter explored path n)).2

/-- `const animationDelay = 1000 - speed` (source line 179). -/
def animationDelay (speed : Int) : Int := 1000 - speed

/-- The tick handler with an explicit fallible rendering adapter: `render`
returns `some msg` when the DOM call throws. The source body has no
`try`/`finally`, so a throw aborts the handler before `currentAnimationStep`
is advanced and before any `clearInterval`: the returned state is the
pre-tick state (timer still pending) together with the instructions emitted
before the throw and the propagated error. -/
def tickRun (render : Instr → Option String) (explored path : List NodeId)
    (s : AnimState) : AnimState × List Instr × Option String :=
  if s.running = false then (s, [], none)
  else if s.stepIdx < explored.length then
    let node := explored.getD s.stepIdx ""
    match render (.highlight node "visited") with
    | some e => (s, [], some e)
    | none =>
      match render (.showStep s.stepIdx) with
      | some e => (s, [.highlight node "visited"], some e)
      | none => ({ s with stepIdx := s.stepIdx + 1 },
          [.highlight node "visited", .showStep s.stepIdx], none)
  else if s.stepIdx < explored.length + path.length then
    let node := path.getD (s.stepIdx - explored.length) ""
    match render (.highlight node "in-path") with
    | some e => (s, [], some e)
    | none =>
      match render (.moveToken node) with
      | some e => (s, [.highlight node "in-path"], some e)
      | none =>
        match render (.showStep s.stepIdx) with
        | some e => (s, [.highlight node "in-path", .moveToken node], some e)
        | none => ({ s with stepIdx := s.stepIdx + 1 },
            [.highlight node "in-path", .moveToken node, .showStep s.stepIdx], none)
  else ({ s with running := false }, [], none)

/-- A possibly-null JS array argument: reading `.length` or `.join` on `null`
throws a `TypeError`. -/
def jsList (o : Option (List NodeId)) : Except String (List NodeId) :=
  match o with
  | none => .error "TypeError: null is not an object"
  | some l => .ok l

/-- `startAnimation(explored, path, algorithm)` (source lines 171-204) up to
the point where the repeating timer is installed: `generateAlgorithmSteps`
dereferences both arrays (`explored.length`, `path.join`), so a `null`
argument throws before any timer is set; otherwise the scheduler starts in
the Running state with tick index 0. -/
def startAnimationState (g : Graph) (h : Heur)
    (explored path : Option (List NodeId)) (alg : String) :
    Except String AnimState := do
  let e ← jsList explored
  let p ← jsList path
  let _ := generateAlgorithmSteps alg g h e p
  pure ⟨0, true⟩

/-- A graph in which every node id has an adjacency entry (the missing ones
filled with the empty object) and every listed neighbor a numeric weight (the
missing ones filled with `1`, matching the `|| 1` default). Used to state
that the simulator treats missing data exactly like these defaults. -/
def totalGraph (g : Graph) : Graph := fun n =>
  some (((g n).getD []).map (fun p => (p.1, some (jsOrInt p.2 1))))

/-- A heuristic table defined on every node id, the missing entries filled
with `0` (matching the `|| 0` default). -/
def totalHeur (h : Heur) : Heur := fun n =>
  some (jsOrInt (h n) 0)

/-- The prefix of the explored sequence the reconstruction loop actually
processes: everything up to and including the first occurrence of the
hardcoded goal node `B`. -/
def takeToGoal : List NodeId → List NodeId
  | [] => []
  | n :: rest => if n == "B" then [n] else n :: takeToGoal rest

/-- Is this narration line the "Goal reached at node B!" line? -/
def isGoalLine : StepLine → Bool
  | .goal _ => true
  | _ => false

/-- Is this narration line a neighbor-expansion ("Evaluate neighbors of B")
line for the goal node of the A* branch? -/
def isEvalGoal : StepLine → Bool
  | .evalNeighbors _ n _ => n == "B"
  | _ => false

/-- Modelled from the spec: the spec's description of a stable priority
insert — the new entry goes after every existing entry whose f-value is at or
below its own ("ties broken by queue insertion order") and before the first
strictly larger one. Compared below against the source's push-then-sort. -/
def specStableInsert (x : PQEntry) : List PQEntry → List PQEntry
  | [] => [x]
  | y :: ys => if fLe y.fv x.fv then y :: specStableInsert x ys else x :: y :: ys

/-- All f-values in the list are numeric (no `undefined`), which is exactly
the regime in which the JS sort comparator is consistent. -/
def AllSomeF (l : List PQEntry) : Prop := ∀ e ∈ l, e.fv.isSome

/-- The list is ascending by f-value. -/
def PqSortedF (l : List PQEntry) : Prop :=
  l.Pairwise (fun a b => fLe a.fv b.fv = true)

/-- The four-node maze of the spec's scenarios: A-{B:1, C:1}, B-{D:1},
C-{}, D-{}. -/
def mazeG : Graph := fun n =>
  if n = "A" then some [("B", some 1), ("C", some 1)]
  else if n = "B" then some [("D", some 1)]
  else if n = "C" then some []
  else if n = "D" then some []
  else none

/-- The heuristic table of the spec's A* scenario. -/
def mazeH : Heur := fun n =>
  if n = "A" then some 2 else if n = "B" then some 1
  else if n = "C" then some 1 else if n = "D" then some 0 else none

/-- A graph object with no entries at all. -/
def emptyG : Graph := fun _ => none

/-- A heuristic table with no entries at all. -/
def emptyH : Heur := fun _ => none

/-- A small graph where the goal node `B` still has an unexplored neighbor:
A-{B:1}, B-{C:1}. -/
def goalEdgeG : Graph := fun n =>
  if n = "A" then some [("B", some 1)]
  else if n = "B" then some [("C", some 1)]
  else none

/-- A rendering adapter whose first DOM call throws. -/
def throwingRender : Instr → Option String := fun _ => some "TypeError"

/-! ### Basic lemmas about the JS-modelling helpers -/

theorem mem_visitedAdd (v : List NodeId) (n x : NodeId) :
    x ∈ visitedAdd v n ↔ x ∈ v ∨ x = n := by
  unfold visitedAdd
  split
  · rename_i hc
    have hn : n ∈ v := List.elem_iff.mp hc
    constructor
    · exact Or.inl
    · rintro (hx | rfl)
      · exact hx
      · exact hn
  · simp

theorem foldl_visitedAdd_mem (ns : List NodeId) :
    ∀ (v : List NodeId) (x : NodeId),
      x ∈ List.foldl visitedAdd v ns ↔ x ∈ v ∨ x ∈ ns := by
  induction ns with
  | nil => intro v x; simp
  | cons n ns ih =>
    intro v x
    simp only [List.foldl_cons, ih, mem_visitedAdd, List.mem_cons]
    tauto

/-! ### Scheduler helper lemmas -/

theorem tick_halted (e p : List NodeId) (i : Nat) :
    tick e p ⟨i, false⟩ = (⟨i, false⟩, []) := rfl

theorem stateAfter_halted (e p : List NodeId) (i k : Nat)
    (hk : stateAfter e p k = ⟨i, false⟩) :
    ∀ m, stateAfter e p (k + m) = ⟨i, false⟩ := by
  intro m
  induction m with
  | zero => exact hk
  | succ m ih =>
    show (tick e p (stateAfter e p (k + m))).1 = _
    rw [ih, tick_halted]

/-! ### Claims C2, C5 (counterexample), C7, C8, C9 -/

/-- C2, counterexample: on the graph A-{B:1,C:1}, B-{D:1}, C-{}, D-{} with
`explored = [A, C, B, D]`, the DFS reconstruction does not emit the snapshots
`[A]; [C,B]; [B]; [D]` claimed in the spec scenario: the initial node `A` is
never popped off the simulated stack, the pop at each step removes the top of
the stack (not necessarily the explored node), and the loop stops at the
hardcoded goal `B` before `D` is ever processed. -/
theorem C2_counterexample :
    (dfsRun mazeG ["A", "C", "B", "D"]).snaps ≠
      [["A"], ["C", "B"], ["B"], ["D"]] := by decide

/-- C2, amended: the actual DFS reconstruction on that input. The initial
snapshot is `[A]`; expanding A (neighbors reversed to `[C,B]`) gives snapshot
`[A,C,B]` because `A` stays on the stack; the pop narrated for C removes the
top element `B`, giving `[A,C]`; the pop narrated for B removes `C`, giving
`[A]`, and expanding B's neighbor D gives `[A,D]`; since B is the hardcoded
goal, the goal-reached narration is emitted there and `D` is never
processed. -/
theorem C2_amended_trace :
    (dfsRun mazeG ["A", "C", "B", "D"]).snaps =
      [["A"], ["A", "C", "B"], ["A", "C"], ["A"], ["A", "D"]] ∧
    (dfsRun mazeG ["A", "C", "B", "D"]).steps =
      [.initStack, .addStack 1 "A" ["C", "B"], .popLine 2 "C", .popLine 3 "B",
        .addStack 4 "B" ["D"], .goal 5] := by decide

/-- C5, counterexample: a missing heuristic entry for the start node is NOT
treated as zero at initialization: the initial priority-queue entry stores the
raw `heuristic['A']` lookup (`undefined`), so on an empty heuristic table the
A* reconstruction differs from the one on the zero-filled table (the initial
snapshot reads `A(f=undefined)` instead of `A(f=0)`). -/
theorem C5_counterexample :
    astarRun emptyG emptyH ["A"] ≠ astarRun emptyG (totalHeur emptyH) ["A"] := by
  decide

/-- C8, counterexample: the per-tick interval `1000 - speed` is not clamped;
at speed 1001 it is negative. -/
theorem C8_counterexample : animationDelay 1001 = -1 ∧ animationDelay 1001 < 0 := by
  decide

/-- C8, amended: the interval equals the fixed constant 1000 minus the speed
and is strictly antitone in the speed, but the code performs no clamping: the
value is non-negative exactly when the speed is at most 1000 (any clamping of
a negative delay is done by the host timer, not by this code). -/
theorem C8_amended (s t : Int) (hst : s < t) :
    animationDelay t < animationDelay s ∧ (0 ≤ animationDelay s ↔ s ≤ 1000) := by
  unfold animationDelay
  omega

/-- Witness for C8: at speeds 300 < 900 the interval strictly drops, and at
speed 300 it is non-negative. -/
theorem C8_witness :
    animationDelay 900 < animationDelay 300 ∧
      (0 ≤ animationDelay 300 ↔ (300 : Int) ≤ 1000) :=
  C8_amended 300 900 (by decide)

/-- C7, counterexample: `startAnimation` with empty explored/path lists does
NOT transition to Complete immediately — the repeating timer is installed and
the scheduler is left Running (the transition only happens on the first
tick); and with a `null` list the start call throws a TypeError (the step
generator reads `.length`/`.join` off the null array) instead of completing
silently. -/
theorem C7_counterexample :
    startAnimationState emptyG emptyH (some []) (some []) "bfs" = .ok ⟨0, true⟩ ∧
    (⟨0, true⟩ : AnimState).running ≠ false ∧
    startAnimationState emptyG emptyH none (some []) "bfs" =
      .error "TypeError: null is not an object" := by
  refine ⟨rfl, by decide, rfl⟩

/-- C7, amended: with empty explored/path lists, start leaves the scheduler
Running with tick index 0; the first tick then transitions to Complete
(cancels the timer) emitting no instructions, and no tick ever emits an
instruction; with a `null` list, start throws a TypeError; and an exception
raised inside the tick handler propagates WITHOUT cancelling the pending
timer: the scheduler state is left unchanged and still Running. -/
theorem C7_amended :
    startAnimationState emptyG emptyH (some []) (some []) "bfs" = .ok ⟨0, true⟩ ∧
    tick [] [] ⟨0, true⟩ = (⟨0, false⟩, []) ∧
    (∀ k, instrsAt [] [] k = []) ∧
    startAnimationState emptyG emptyH none (some []) "bfs" =
      .error "TypeError: null is not an object" ∧
    tickRun throwingRender ["A"] [] ⟨0, true⟩ = (⟨0, true⟩, [], some "TypeError") ∧
    (tickRun throwingRender ["A"] [] ⟨0, true⟩).1.running = true := by
  refine ⟨rfl, rfl, ?_, rfl, rfl, rfl⟩
  intro k
  cases k with
  | zero => rfl
  | succ k =>
    have h2 : stateAfter [] [] (k + 1) = ⟨0, false⟩ := by
      have h1 : stateAfter [] [] (1 + k) = ⟨0, false⟩ :=
        stateAfter_halted [] [] 0 1 rfl k
      rwa [Nat.add_comm] at h1
    show (tick [] [] (stateAfter [] [] (k + 1))).2 = []
    rw [h2, tick_halted]

/-- C9: for any algorithm string other than "bfs", "dfs" and "astar", the
step generator emits no initialize step and no snapshots: the output is
exactly the three final summary lines and an empty snapshot list. -/
theorem C9_other_algorithm (alg : String) (g : Graph) (h : Heur)
    (explored path : List NodeId)
    (h1 : alg ≠ "bfs") (h2 : alg ≠ "dfs") (h3 : alg ≠ "astar") :
    generateAlgorithmSteps alg g h explored path =
      ([.finalPath path, .pathLen path.length, .exploredTotal explored.length],
        []) := by
  have b1 : (alg == "bfs") = false := beq_eq_false_iff_ne.mpr h1
  have b2 : (alg == "dfs") = false := beq_eq_false_iff_ne.mpr h2
  have b3 : (alg == "astar") = false := beq_eq_false_iff_ne.mpr h3
  simp [generateAlgorithmSteps, b1, b2, b3]

/-- Witness for C9 at the algorithm string "dijkstra". -/
theorem C9_witness :
    generateAlgorithmSteps "dijkstra" emptyG emptyH ["A"] ["A", "B"] =
      ([.finalPath ["A", "B"], .pathLen 2, .exploredTotal 1], []) :=
  C9_other_algorithm "dijkstra" emptyG emptyH ["A"] ["A", "B"]
    (by decide) (by decide) (by decide)

/-- C6: for a scheduler run with `explored.length = 3` and `path.length = 2`,
exactly five instruction-emitting ticks occur: ticks 0-2 emit a
highlight-explored instruction and no token-move instruction, ticks 3 and 4
emit a highlight-path and a move-token instruction, tick 5 only performs the
transition to Complete (it cancels the timer and emits nothing), and no tick
from 5 on emits any instruction. -/
theorem C6_scheduler (explored path : List NodeId)
    (he : explored.length = 3) (hp : path.length = 2) :
    instrsAt explored path 0 =
      [.highlight (explored.getD 0 "") "visited", .showStep 0] ∧
    instrsAt explored path 1 =
      [.highlight (explored.getD 1 "") "visited", .showStep 1] ∧
    instrsAt explored path 2 =
      [.highlight (explored.getD 2 "") "visited", .showStep 2] ∧
    instrsAt explored path 3 = [.highlight (path.getD 0 "") "in-path",
      .moveToken (path.getD 0 ""), .showStep 3] ∧
    instrsAt explored path 4 = [.highlight (path.getD 1 "") "in-path",
      .moveToken (path.getD 1 ""), .showStep 4] ∧
    (∀ n : NodeId, Instr.moveToken n ∉ instrsAt explored path 0 ∧
      Instr.moveToken n ∉ instrsAt explored path 1 ∧
      Instr.moveToken n ∉ instrsAt explored path 2) ∧
    (stateAfter explored path 5).running = true ∧
    (stateAfter explored path 6).running = false ∧
    (∀ k, 5 ≤ k → instrsAt explored path k = []) := by
  obtain ⟨a, b, c, rfl⟩ := List.length_eq_three.mp he
  obtain ⟨d, e, rfl⟩ := List.length_eq_two.mp hp
  refine ⟨rfl, rfl, rfl, rfl, rfl, ?_, rfl, rfl, ?_⟩
  · intro n
    have e0 : instrsAt [a, b, c] [d, e] 0 =
        [.highlight a "visited", .showStep 0] := rfl
    have e1 : instrsAt [a, b, c] [d, e] 1 =
        [.highlight b "visited", .showStep 1] := rfl
    have e2 : instrsAt [a, b, c] [d, e] 2 =
        [.highlight c "visited", .showStep 2] := rfl
    rw [e0, e1, e2]
    refine ⟨by simp, by simp, by simp⟩
  · intro k hk
    obtain ⟨m, rfl⟩ := Nat.exists_eq_add_of_le hk
    cases m with
    | zero => rfl
    | succ m =>
      have hst : stateAfter [a, b, c] [d, e] (6 + m) = ⟨5, false⟩ :=
        stateAfter_halted [a, b, c] [d, e] 5 6 rfl m
      have hn : 5 + (m + 1) = 6 + m := by omega
      rw [hn]
      show (tick [a, b, c] [d, e] (stateAfter [a, b, c] [d, e] (6 + m))).2 = []
      rw [hst, tick_halted]

/-- Witness for C6 on `explored = [A,B,C]`, `path = [C,B]`: tick 3 moves the
token to C, tick 5 emits nothing. -/
theorem C6_witness :
    instrsAt ["A", "B", "C"] ["C", "B"] 3 =
      [.highlight "C" "in-path", .moveToken "C", .showStep 3] ∧
    instrsAt ["A", "B", "C"] ["C", "B"] 5 = [] := by
  have h := C6_scheduler ["A", "B", "C"] ["C", "B"] (by rfl) (by rfl)
  exact ⟨h.2.2.2.1, h.2.2.2.2.2.2.2.2 5 (by omega)⟩

/-! ### BFS loop decomposition (for C1) -/

theorem bfsLoop_append (g : Graph) (ys : List NodeId) :
    ∀ (xs : List NodeId), "B" ∉ xs → ∀ (first : Bool) (s : SimState),
    bfsLoop g first s (xs ++ ys) =
      bfsLoop g (first && xs.isEmpty) (bfsLoop g first s xs) ys := by
  intro xs
  induction xs with
  | nil =>
    intro _ first s
    simp [bfsLoop]
  | cons x xs ih =>
    intro hB first s
    simp only [List.mem_cons, not_or] at hB
    have hx : (x == "B") = false := beq_eq_false_iff_ne.mpr (Ne.symm hB.1)
    simp only [List.cons_append, bfsLoop, hx, List.isEmpty_cons, Bool.and_false,
      Bool.false_eq_true, if_false]
    exact ih hB.2 false _

theorem bfs_single_step (g : Graph) (first : Bool) (s : SimState) (node : NodeId)
    (q1 ns : List NodeId)
    (hq1 : q1 = if first then s.frontier else s.frontier.tail)
    (hns : ns = (jsKeys g node).filter (fun m => !(s.visited.contains m)))
    (hne : ns ≠ []) :
    (bfsLoop g first s [node]).snaps.getLast? = some (q1 ++ ns) ∧
    (bfsLoop g first s [node]).frontier = q1 ++ ns ∧
    (∀ x : NodeId, x ∈ (bfsLoop g first s [node]).visited ↔
      x ∈ s.visited ∨ x ∈ ns) := by
  have hie : ((jsKeys g node).filter
      (fun m => !(s.visited.contains m))).isEmpty = false :=
    List.isEmpty_eq_false.mpr (hns ▸ hne)
  subst hq1 hns
  cases first with
  | true =>
    simp only [bfsLoop, reduceIte, bfsExpand, simGoal, hie, Bool.false_eq_true,
      if_false]
    split <;>
      exact ⟨List.getLast?_concat _, rfl, fun x => foldl_visitedAdd_mem _ _ x⟩
  | false =>
    simp only [bfsLoop, reduceIte, bfsExpand, bfsPop, simGoal, hie,
      Bool.false_eq_true, if_false]
    split <;>
      exact ⟨List.getLast?_concat _, rfl, fun x => foldl_visitedAdd_mem _ _ x⟩

/-- C1: in the BFS reconstruction, whenever explored node number `i` (with no
goal occurrence before it) has at least one neighbor outside the current
visited set, the snapshot emitted immediately after expanding it equals the
queue of previously-enqueued-and-not-yet-popped nodes (the queue after the
pop narrated for index `i`, or the untouched initial queue at index 0)
followed by exactly the unvisited neighbors in natural neighbor-iteration
order; those neighbors become the queue's new tail, and they enter the
visited set at this very step — at enqueue time, not when later popped. -/
theorem C1_bfs_expansion (g : Graph) (explored : List NodeId) (i : Nat)
    (hi : i < explored.length) (hB : "B" ∉ explored.take i)
    (node : NodeId) (hnode : explored.get ⟨i, hi⟩ = node)
    (q1 ns : List NodeId)
    (hq1 : q1 = if i = 0 then (bfsRun g (explored.take i)).frontier
      else (bfsRun g (explored.take i)).frontier.tail)
    (hns : ns = (jsKeys g node).filter
      (fun m => !((bfsRun g (explored.take i)).visited.contains m)))
    (hne : ns ≠ []) :
    (bfsRun g (explored.take (i + 1))).snaps.getLast? = some (q1 ++ ns) ∧
    (bfsRun g (explored.take (i + 1))).frontier = q1 ++ ns ∧
    (∀ x : NodeId, x ∈ (bfsRun g (explored.take (i + 1))).visited ↔
      x ∈ (bfsRun g (explored.take i)).visited ∨ x ∈ ns) := by
  subst hnode
  have htake : explored.take (i + 1) =
      explored.take i ++ [explored.get ⟨i, hi⟩] := by
    rw [List.take_succ, List.getElem?_eq_getElem hi]
    rfl
  have hrun : bfsRun g (explored.take (i + 1)) =
      bfsLoop g (true && (explored.take i).isEmpty)
        (bfsRun g (explored.take i)) [explored.get ⟨i, hi⟩] := by
    rw [bfsRun, htake]
    exact bfsLoop_append g _ _ hB true bfsInit
  have hflag : (true && (explored.take i).isEmpty) = decide (i = 0) := by
    cases i with
    | zero => simp
    | succ j =>
      have hnil : explored ≠ [] :=
        List.ne_nil_of_length_pos (Nat.lt_of_le_of_lt (Nat.zero_le _) hi)
      have h1 : (explored.take (j + 1)).isEmpty = false :=
        List.isEmpty_eq_false.mpr (by simp [List.take_eq_nil_iff, hnil])
      simp [h1]
  have hq1' : q1 = if (decide (i = 0) : Bool)
      then (bfsRun g (explored.take i)).frontier
      else (bfsRun g (explored.take i)).frontier.tail := by
    rw [hq1]
    simp only [decide_eq_true_eq]
  obtain ⟨h1, h2, h3⟩ := bfs_single_step g (decide (i = 0))
    (bfsRun g (explored.take i)) (explored.get ⟨i, hi⟩) q1 ns hq1' hns hne
  rw [hrun, hflag]
  exact ⟨h1, h2, h3⟩

/-- Witness for C1 on the scenario maze with `explored = [A, B]`, `i = 1`:
after the pop the queue is `[B, C]`, node B's only unvisited neighbor is D,
and the expansion snapshot is `[B, C, D]`, with D marked visited there. -/
theorem C1_witness :
    (bfsRun mazeG ["A", "B"]).snaps.getLast? = some ["B", "C", "D"] ∧
    (bfsRun mazeG ["A", "B"]).frontier = ["B", "C", "D"] ∧
    ("D" ∈ (bfsRun mazeG ["A", "B"]).visited ↔
      "D" ∈ (bfsRun mazeG ["A"]).visited ∨ "D" ∈ ["D"]) := by
  have h := C1_bfs_expansion mazeG ["A", "B"] 1 (by decide) (by decide)
    "B" rfl ["B", "C"] ["D"] (by decide) (by decide) (by decide)
  exact ⟨h.1, h.2.1, h.2.2 "D"⟩

/-! ### Goal-narration counting and early termination (for C3) -/

theorem simGoal_goal_count (s : SimState) :
    ((simGoal s).steps.countP isGoalLine) = s.steps.countP isGoalLine + 1 := by
  simp [simGoal, List.countP_append, List.countP_cons, isGoalLine]

theorem bfsPop_goal_count (node : NodeId) (s : SimState) :
    ((bfsPop node s).steps.countP isGoalLine) = s.steps.countP isGoalLine := by
  simp [bfsPop, List.countP_append, List.countP_cons, isGoalLine]

theorem bfsExpand_goal_count (g : Graph) (node : NodeId) (s1 : SimState) :
    ((bfsExpand g node s1).steps.countP isGoalLine) =
      s1.steps.countP isGoalLine := by
  unfold bfsExpand
  dsimp only
  split_ifs <;> simp [List.countP_append, List.countP_cons, isGoalLine]

theorem dfsPop_goal_count (node : NodeId) (s : SimState) :
    ((dfsPop node s).steps.countP isGoalLine) = s.steps.countP isGoalLine := by
  simp [dfsPop, List.countP_append, List.countP_cons, isGoalLine]

theorem dfsExpand_goal_count (g : Graph) (node : NodeId) (s1 : SimState) :
    ((dfsExpand g node s1).steps.countP isGoalLine) =
      s1.steps.countP isGoalLine := by
  unfold dfsExpand
  dsimp only
  split_ifs <;> simp [List.countP_append, List.countP_cons, isGoalLine]

theorem bfs_goalFree_count (g : Graph) :
    ∀ (xs : List NodeId), "B" ∉ xs → ∀ (first : Bool) (s : SimState),
    ((bfsLoop g first s xs).steps.countP isGoalLine) =
      s.steps.countP isGoalLine := by
  intro xs
  induction xs with
  | nil => intro _ first s; rfl
  | cons x xs ih =>
    intro hB first s
    simp only [List.mem_cons, not_or] at hB
    have hx : (x == "B") = false := beq_eq_false_iff_ne.mpr (Ne.symm hB.1)
    simp only [bfsLoop, hx, Bool.false_eq_true, if_false]
    rw [ih hB.2, bfsExpand_goal_count]
    split
    · rfl
    · exact bfsPop_goal_count x s

theorem bfs_goal_cons (g : Graph) (ys : List NodeId) (first : Bool)
    (s : SimState) :
    bfsLoop g first s ("B" :: ys) = bfsLoop g first s ["B"] := by
  simp [bfsLoop]

theorem bfs_goal_count (g : Graph) (first : Bool) (s : SimState) :
    ((bfsLoop g first s ["B"]).steps.countP isGoalLine) =
      s.steps.countP isGoalLine + 1 := by
  have hbb : ("B" == "B") = true := by decide
  simp only [bfsLoop, hbb, if_true]
  rw [simGoal_goal_count, bfsExpand_goal_count]
  split
  · rfl
  · rw [bfsPop_goal_count]

theorem dfsLoop_append (g : Graph) (ys : List NodeId) :
    ∀ (xs : List NodeId), "B" ∉ xs → ∀ (first : Bool) (s : SimState),
    dfsLoop g first s (xs ++ ys) =
      dfsLoop g (first && xs.isEmpty) (dfsLoop g first s xs) ys := by
  intro xs
  induction xs with
  | nil =>
    intro _ first s
    simp [dfsLoop]
  | cons x xs ih =>
    intro hB first s
    simp only [List.mem_cons, not_or] at hB
    have hx : (x == "B") = false := beq_eq_false_iff_ne.mpr (Ne.symm hB.1)
    simp only [List.cons_append, dfsLoop, hx, List.isEmpty_cons, Bool.and_false,
      Bool.false_eq_true, if_false]
    exact ih hB.2 false _

theorem dfs_goalFree_count (g : Graph) :
    ∀ (xs : List NodeId), "B" ∉ xs → ∀ (first : Bool) (s : SimState),
    ((dfsLoop g first s xs).steps.countP isGoalLine) =
      s.steps.countP isGoalLine := by
  intro xs
  induction xs with
  | nil => intro _ first s; rfl
  | cons x xs ih =>
    intro hB first s
    simp only [List.mem_cons, not_or] at hB
    have hx : (x == "B") = false := beq_eq_false_iff_ne.mpr (Ne.symm hB.1)
    simp only [dfsLoop, hx, Bool.false_eq_true, if_false]
    rw [ih hB.2, dfsExpand_goal_count]
    split
    · rfl
    · exact dfsPop_goal_count x s

theorem dfs_goal_cons (g : Graph) (ys : List NodeId) (first : Bool)
    (s : SimState) :
    dfsLoop g first s ("B" :: ys) = dfsLoop g first s ["B"] := by
  simp [dfsLoop]

theorem dfs_goal_count (g : Graph) (first : Bool) (s : SimState) :
    ((dfsLoop g first s ["B"]).steps.countP isGoalLine) =
      s.steps.countP isGoalLine + 1 := by
  have hbb : ("B" == "B") = true := by decide
  simp only [dfsLoop, hbb, if_true]
  rw [simGoal_goal_count, dfsExpand_goal_count]
  split
  · rfl
  · rw [dfsPop_goal_count]

theorem astarLoop_append (g : Graph) (h : Heur) (ys : List NodeId) :
    ∀ (xs : List NodeId), "B" ∉ xs → ∀ (first : Bool) (s : AStarState),
    astarLoop g h first s (xs ++ ys) =
      astarLoop g h (first && xs.isEmpty) (astarLoop g h first s xs) ys := by
  intro xs
  induction xs with
  | nil =>
    intro _ first s
    simp [astarLoop]
  | cons x xs ih =>
    intro hB first s
    simp only [List.mem_cons, not_or] at hB
    have hx : (x == "B") = false := beq_eq_false_iff_ne.mpr (Ne.symm hB.1)
    simp only [List.cons_append, astarLoop, hx, List.isEmpty_cons, Bool.and_false,
      Bool.false_eq_true, if_false]
    exact ih hB.2 false _

theorem countP_relax (g : Graph) (h : Heur) (node : NodeId) (cg : Int)
    (p : StepLine → Bool)
    (hp : ∀ (n : NodeId) (gv hv fv : Int), p (StepLine.calcLine n gv hv fv) = false) :
    ∀ (l : List NodeId) (s : AStarState),
    ((List.foldl (astarRelax g h node cg) s l).steps.countP p) =
      s.steps.countP p := by
  intro l
  induction l with
  | nil => intro s; rfl
  | cons n l ih =>
    intro s
    simp only [List.foldl_cons]
    rw [ih]
    unfold astarRelax
    split <;> dsimp only <;> split_ifs <;>
      simp [List.countP_append, List.countP_cons, hp]

theorem astarPop_count (p : StepLine → Bool)
    (hp : ∀ (sc : Nat) (n : NodeId), p (StepLine.removeMin sc n) = false)
    (node : NodeId) (s : AStarState) :
    ((astarPop node s).steps.countP p) = s.steps.countP p := by
  simp [astarPop, List.countP_append, List.countP_cons, hp]

theorem astarExpand_count (g : Graph) (h : Heur) (node : NodeId) (cg : Int)
    (s1 : AStarState) (p : StepLine → Bool)
    (hpc : ∀ (n : NodeId) (gv hv fv : Int), p (StepLine.calcLine n gv hv fv) = false)
    (hpe : ∀ (sc : Nat) (ns : List NodeId),
      p (StepLine.evalNeighbors sc node ns) = false) :
    ((astarExpand g h node cg s1).steps.countP p) = s1.steps.countP p := by
  unfold astarExpand
  dsimp only
  split_ifs <;>
    simp [countP_relax g h node cg p hpc, List.countP_append, List.countP_cons,
      hpe]

theorem astar_goalFree_count (g : Graph) (h : Heur) :
    ∀ (xs : List NodeId), "B" ∉ xs → ∀ (first : Bool) (s : AStarState),
    ((astarLoop g h first s xs).steps.countP isGoalLine) =
      s.steps.countP isGoalLine := by
  intro xs
  induction xs with
  | nil => intro _ first s; rfl
  | cons x xs ih =>
    intro hB first s
    simp only [List.mem_cons, not_or] at hB
    have hx : (x == "B") = false := beq_eq_false_iff_ne.mpr (Ne.symm hB.1)
    simp only [astarLoop, hx, Bool.false_eq_true, if_false]
    rw [ih hB.2,
      astarExpand_count g h x _ _ isGoalLine (fun _ _ _ _ => rfl) (fun _ _ => rfl)]
    split
    · rfl
    · rw [astarPop_count isGoalLine (fun _ _ => rfl)]

theorem astar_goal_cons (g : Graph) (h : Heur) (ys : List NodeId) (first : Bool)
    (s : AStarState) :
    astarLoop g h first s ("B" :: ys) = astarLoop g h first s ["B"] := by
  simp [astarLoop]

theorem astar_goal_count (g : Graph) (h : Heur) (first : Bool) (s : AStarState) :
    ((astarLoop g h first s ["B"]).steps.countP isGoalLine) =
      s.steps.countP isGoalLine + 1 := by
  have hbb : ("B" == "B") = true := by decide
  simp only [astarLoop, hbb, if_true]
  have hgoal : ∀ (t : AStarState),
      ((astarGoal t).steps.countP isGoalLine) =
        t.steps.countP isGoalLine + 1 := by
    intro t
    simp [astarGoal, List.countP_append, List.countP_cons, isGoalLine]
  rw [hgoal]
  split
  · rfl
  · rw [astarPop_count isGoalLine (fun _ _ => rfl)]

theorem astar_evalGoal_count (g : Graph) (h : Heur) :
    ∀ (xs : List NodeId) (first : Bool) (s : AStarState),
    ((astarLoop g h first s xs).steps.countP isEvalGoal) =
      s.steps.countP isEvalGoal := by
  intro xs
  induction xs with
  | nil => intro first s; rfl
  | cons x xs ih =>
    intro first s
    have hgoal : ∀ (t : AStarState),
        ((astarGoal t).steps.countP isEvalGoal) = t.steps.countP isEvalGoal := by
      intro t
      simp [astarGoal, List.countP_append, List.countP_cons, isEvalGoal]
    by_cases hx : (x == "B") = true
    · simp only [astarLoop, hx, if_true]
      rw [hgoal]
      split
      · rfl
      · rw [astarPop_count isEvalGoal (fun _ _ => rfl)]
    · have hx' : (x == "B") = false := by
        revert hx; cases (x == "B") <;> simp
      simp only [astarLoop, hx', Bool.false_eq_true, if_false]
      rw [ih,
        astarExpand_count g h x _ _ isEvalGoal (fun _ _ _ _ => rfl)
          (fun _ _ => by simp [isEvalGoal, hx'])]
      split
      · rfl
      · rw [astarPop_count isEvalGoal (fun _ _ => rfl)]

/-- C3, amended: for every explored sequence containing the goal node B
(written as `xs ++ B :: ys` with no goal occurrence in `xs`), each of the
three policies stops at the first index whose node equals the goal — the run
equals the run on the prefix ending at that first occurrence — and emits
exactly one goal-reached narration; the A* policy additionally performs no
neighbor expansion for the goal node (it emits no "Evaluate neighbors of B"
line). BFS and DFS, by contrast, do expand the goal node's unvisited
neighbors before the goal narration (see the counterexample). -/
theorem C3_goal_termination (g : Graph) (h : Heur) (xs ys : List NodeId)
    (hxs : "B" ∉ xs) :
    (bfsRun g (xs ++ "B" :: ys) = bfsRun g (xs ++ ["B"])) ∧
    ((bfsRun g (xs ++ "B" :: ys)).steps.countP isGoalLine = 1) ∧
    (dfsRun g (xs ++ "B" :: ys) = dfsRun g (xs ++ ["B"])) ∧
    ((dfsRun g (xs ++ "B" :: ys)).steps.countP isGoalLine = 1) ∧
    (astarRun g h (xs ++ "B" :: ys) = astarRun g h (xs ++ ["B"])) ∧
    ((astarRun g h (xs ++ "B" :: ys)).steps.countP isGoalLine = 1) ∧
    ((astarRun g h (xs ++ "B" :: ys)).steps.countP isEvalGoal = 0) := by
  refine ⟨?_, ?_, ?_, ?_, ?_, ?_, ?_⟩
  · simp only [bfsRun]
    rw [bfsLoop_append g ("B" :: ys) xs hxs, bfsLoop_append g ["B"] xs hxs,
      bfs_goal_cons]
  · simp only [bfsRun]
    rw [bfsLoop_append g ("B" :: ys) xs hxs, bfs_goal_cons, bfs_goal_count,
      bfs_goalFree_count g xs hxs]
    decide
  · simp only [dfsRun]
    rw [dfsLoop_append g ("B" :: ys) xs hxs, dfsLoop_append g ["B"] xs hxs,
      dfs_goal_cons]
  · simp only [dfsRun]
    rw [dfsLoop_append g ("B" :: ys) xs hxs, dfs_goal_cons, dfs_goal_count,
      dfs_goalFree_count g xs hxs]
    decide
  · simp only [astarRun]
    rw [astarLoop_append g h ("B" :: ys) xs hxs,
      astarLoop_append g h ["B"] xs hxs, astar_goal_cons]
  · simp only [astarRun]
    rw [astarLoop_append g h ("B" :: ys) xs hxs, astar_goal_cons,
      astar_goal_count, astar_goalFree_count g h xs hxs]
    simp [astarInit, List.countP_cons, isGoalLine]
  · simp only [astarRun]
    rw [astar_evalGoal_count]
    rfl

/-- C3, counterexample: on the graph A-{B:1}, B-{C:1} with
`explored = [A, B]`, the BFS reconstruction DOES expand the neighbors of the
goal node B — it emits the expansion narration "Add neighbors of B to queue:
C" (and its snapshot) before the goal-reached narration, because the goal
test sits after neighbor expansion in the BFS and DFS branches. -/
theorem C3_counterexample :
    StepLine.addQueue 3 "B" ["C"] ∈ (bfsRun goalEdgeG ["A", "B"]).steps ∧
    (bfsRun goalEdgeG ["A", "B"]).snaps.getLast? = some ["B", "C"] := by
  decide

/-- Witness for C3 at `xs = [A]`, `ys = [C]` on the same graph: exactly one
goal narration for BFS, and no A* neighbor expansion of the goal node. -/
theorem C3_witness :
    (bfsRun goalEdgeG ["A", "B", "C"]).steps.countP isGoalLine = 1 ∧
    (astarRun goalEdgeG emptyH ["A", "B", "C"]).steps.countP isEvalGoal = 0 := by
  have hh := C3_goal_termination goalEdgeG emptyH ["A"] ["C"] (by decide)
  exact ⟨hh.2.1, hh.2.2.2.2.2.2⟩

/-! ### Distinctness of BFS/DFS snapshots (for C10) -/

theorem filter_unvisited_not_mem (v : List NodeId) (x : NodeId) (l : List NodeId)
    (hx : x ∈ l.filter (fun m => !(v.contains m))) : x ∉ v := by
  have h := (List.mem_filter.mp hx).2
  rw [Bool.not_eq_true'] at h
  intro hxv
  have hc : v.contains x = true := List.elem_iff.mpr hxv
  rw [h] at hc
  cases hc

theorem nodup_append_unvisited (v q ns : List NodeId) (hq : q.Nodup)
    (hqv : ∀ x ∈ q, x ∈ v) (hns : ns.Nodup)
    (hnv : ∀ x ∈ ns, x ∉ v) : (q ++ ns).Nodup := by
  rw [List.nodup_append]
  exact ⟨hq, hns, fun x hxq hxns => hnv x hxns (hqv x hxq)⟩

theorem bfsPop_inv (node : NodeId) (s : SimState)
    (h1 : s.frontier.Nodup) (h2 : ∀ x ∈ s.frontier, x ∈ s.visited)
    (h3 : ∀ snap ∈ s.snaps, snap.Nodup) :
    (bfsPop node s).frontier.Nodup ∧
    (∀ x ∈ (bfsPop node s).frontier, x ∈ (bfsPop node s).visited) ∧
    (∀ snap ∈ (bfsPop node s).snaps, snap.Nodup) := by
  have ht : s.frontier.tail.Nodup :=
    List.Pairwise.sublist (List.tail_sublist _) h1
  refine ⟨ht, ?_, ?_⟩
  · intro x hx
    exact h2 x ((List.tail_sublist _).mem hx)
  · intro snap hs
    rcases List.mem_append.mp hs with hs | hs
    · exact h3 snap hs
    · rw [List.mem_singleton.mp hs]
      exact ht

theorem bfsExpand_inv (g : Graph) (hg : ∀ n : NodeId, (jsKeys g n).Nodup)
    (node : NodeId) (s1 : SimState)
    (h1 : s1.frontier.Nodup) (h2 : ∀ x ∈ s1.frontier, x ∈ s1.visited)
    (h3 : ∀ snap ∈ s1.snaps, snap.Nodup) :
    (bfsExpand g node s1).frontier.Nodup ∧
    (∀ x ∈ (bfsExpand g node s1).frontier, x ∈ (bfsExpand g node s1).visited) ∧
    (∀ snap ∈ (bfsExpand g node s1).snaps, snap.Nodup) := by
  unfold bfsExpand
  dsimp only
  split_ifs with hns
  · exact ⟨h1, h2, h3⟩
  · have hnsd : ((jsKeys g node).filter
        (fun m => !(s1.visited.contains m))).Nodup := (hg node).filter _
    have hfr : (s1.frontier ++ (jsKeys g node).filter
        (fun m => !(s1.visited.contains m))).Nodup :=
      nodup_append_unvisited s1.visited _ _ h1 h2 hnsd
        (fun x hx => filter_unvisited_not_mem _ _ _ hx)
    refine ⟨hfr, ?_, ?_⟩
    · intro x hx
      rw [foldl_visitedAdd_mem]
      rcases List.mem_append.mp hx with hx | hx
      · exact Or.inl (h2 x hx)
      · exact Or.inr hx
    · intro snap hs
      rcases List.mem_append.mp hs with hs | hs
      · exact h3 snap hs
      · rw [List.mem_singleton.mp hs]
        exact hfr

theorem bfs_inv (g : Graph) (hg : ∀ n : NodeId, (jsKeys g n).Nodup) :
    ∀ (xs : List NodeId) (first : Bool) (s : SimState),
    s.frontier.Nodup → (∀ x ∈ s.frontier, x ∈ s.visited) →
    (∀ snap ∈ s.snaps, snap.Nodup) →
    (bfsLoop g first s xs).frontier.Nodup ∧
    (∀ x ∈ (bfsLoop g first s xs).frontier, x ∈ (bfsLoop g first s xs).visited) ∧
    (∀ snap ∈ (bfsLoop g first s xs).snaps, snap.Nodup) := by
  intro xs
  induction xs with
  | nil => exact fun first s h1 h2 h3 => ⟨h1, h2, h3⟩
  | cons node rest ih =>
    intro first s h1 h2 h3
    simp only [bfsLoop]
    cases first with
    | true =>
      try simp only [reduceIte]
      obtain ⟨e1, e2, e3⟩ := bfsExpand_inv g hg node s h1 h2 h3
      split
      · exact ⟨e1, e2, e3⟩
      · exact ih false _ e1 e2 e3
    | false =>
      try simp only [reduceIte]
      obtain ⟨p1, p2, p3⟩ := bfsPop_inv node s h1 h2 h3
      obtain ⟨e1, e2, e3⟩ := bfsExpand_inv g hg node _ p1 p2 p3
      split
      · exact ⟨e1, e2, e3⟩
      · exact ih false _ e1 e2 e3

theorem dfsPop_inv (node : NodeId) (s : SimState)
    (h1 : s.frontier.Nodup) (h2 : ∀ x ∈ s.frontier, x ∈ s.visited)
    (h3 : ∀ snap ∈ s.snaps, snap.Nodup) :
    (dfsPop node s).frontier.Nodup ∧
    (∀ x ∈ (dfsPop node s).frontier, x ∈ (dfsPop node s).visited) ∧
    (∀ snap ∈ (dfsPop node s).snaps, snap.Nodup) := by
  have ht : s.frontier.dropLast.Nodup :=
    List.Pairwise.sublist (List.dropLast_sublist _) h1
  refine ⟨ht, ?_, ?_⟩
  · intro x hx
    exact h2 x ((List.dropLast_sublist _).mem hx)
  · intro snap hs
    rcases List.mem_append.mp hs with hs | hs
    · exact h3 snap hs
    · rw [List.mem_singleton.mp hs]
      exact ht

theorem dfsExpand_inv (g : Graph) (hg : ∀ n : NodeId, (jsKeys g n).Nodup)
    (node : NodeId) (s1 : SimState)
    (h1 : s1.frontier.Nodup) (h2 : ∀ x ∈ s1.frontier, x ∈ s1.visited)
    (h3 : ∀ snap ∈ s1.snaps, snap.Nodup) :
    (dfsExpand g node s1).frontier.Nodup ∧
    (∀ x ∈ (dfsExpand g node s1).frontier, x ∈ (dfsExpand g node s1).visited) ∧
    (∀ snap ∈ (dfsExpand g node s1).snaps, snap.Nodup) := by
  unfold dfsExpand
  dsimp only
  split_ifs with hns
  · exact ⟨h1, h2, h3⟩
  · have hnsd : (((jsKeys g node).filter
        (fun m => !(s1.visited.contains m))).reverse).Nodup :=
      List.nodup_reverse.mpr ((hg node).filter _)
    have hfr : (s1.frontier ++ ((jsKeys g node).filter
        (fun m => !(s1.visited.contains m))).reverse).Nodup :=
      nodup_append_unvisited s1.visited _ _ h1 h2 hnsd
        (fun x hx =>
          filter_unvisited_not_mem _ _ _ (List.mem_reverse.mp hx))
    refine ⟨hfr, ?_, ?_⟩
    · intro x hx
      rw [foldl_visitedAdd_mem]
      rcases List.mem_append.mp hx with hx | hx
      · exact Or.inl (h2 x hx)
      · exact Or.inr hx
    · intro snap hs
      rcases List.mem_append.mp hs with hs | hs
      · exact h3 snap hs
      · rw [List.mem_singleton.mp hs]
        exact hfr

theorem dfs_inv (g : Graph) (hg : ∀ n : NodeId, (jsKeys g n).Nodup) :
    ∀ (xs : List NodeId) (first : Bool) (s : SimState),
    s.frontier.Nodup → (∀ x ∈ s.frontier, x ∈ s.visited) →
    (∀ snap ∈ s.snaps, snap.Nodup) →
    (dfsLoop g first s xs).frontier.Nodup ∧
    (∀ x ∈ (dfsLoop g first s xs).frontier, x ∈ (dfsLoop g first s xs).visited) ∧
    (∀ snap ∈ (dfsLoop g first s xs).snaps, snap.Nodup) := by
  intro xs
  induction xs with
  | nil => exact fun first s h1 h2 h3 => ⟨h1, h2, h3⟩
  | cons node rest ih =>
    intro first s h1 h2 h3
    simp only [dfsLoop]
    cases first with
    | true =>
      try simp only [reduceIte]
      obtain ⟨e1, e2, e3⟩ := dfsExpand_inv g hg node s h1 h2 h3
      split
      · exact ⟨e1, e2, e3⟩
      · exact ih false _ e1 e2 e3
    | false =>
      try simp only [reduceIte]
      obtain ⟨p1, p2, p3⟩ := dfsPop_inv node s h1 h2 h3
      obtain ⟨e1, e2, e3⟩ := dfsExpand_inv g hg node _ p1 p2 p3
      split
      · exact ⟨e1, e2, e3⟩
      · exact ih false _ e1 e2 e3

/-- C10: for any graph object (neighbor keys are unique, as JS object keys
always are) and any explored sequence, every frontier snapshot emitted by the
BFS and DFS reconstructions has pairwise-distinct node ids: only unvisited
neighbors are ever inserted and each insertion immediately marks the node
visited, so the queue/stack never holds a node twice. -/
theorem C10_snapshots_nodup (g : Graph) (explored : List NodeId)
    (hg : ∀ n : NodeId, (jsKeys g n).Nodup) :
    (∀ snap ∈ (bfsRun g explored).snaps, snap.Nodup) ∧
    (∀ snap ∈ (dfsRun g explored).snaps, snap.Nodup) := by
  constructor
  · exact (bfs_inv g hg explored true bfsInit (by decide)
      (fun x hx => hx) (by decide)).2.2
  · exact (dfs_inv g hg explored true dfsInit (by decide)
      (fun x hx => hx) (by decide)).2.2

/-- Witness for C10: on the scenario maze the second BFS snapshot
`[A, B, C]` is duplicate-free. -/
theorem C10_witness : List.Nodup ["A", "B", "C"] := by
  have hg : ∀ n : NodeId, (jsKeys mazeG n).Nodup := by
    intro n
    unfold jsKeys mazeG
    split_ifs <;> decide
  exact (C10_snapshots_nodup mazeG ["A"] hg).1 ["A", "B", "C"] (by decide)

/-! ### Sortedness and stability of the simulated priority queue (for C4) -/

theorem fLe_of_not (a b : Option Int) (hab : fLe a b = false) :
    fLe b a = true := by
  unfold fLe at *
  cases a <;> cases b <;> simp_all <;> omega

theorem fLe_trans (a b c : Option Int) (hb : b.isSome)
    (h1 : fLe a b = true) (h2 : fLe b c = true) : fLe a c = true := by
  unfold fLe at *
  cases a <;> cases b <;> cases c <;> simp_all <;> omega

theorem mem_insertByF (x : PQEntry) :
    ∀ (l : List PQEntry) (e : PQEntry), e ∈ insertByF x l ↔ e = x ∨ e ∈ l := by
  intro l
  induction l with
  | nil => intro e; simp [insertByF]
  | cons y ys ih =>
    intro e
    unfold insertByF
    split_ifs <;> simp [ih, List.mem_cons] <;> tauto

theorem pairwise_insertByF (x : PQEntry) :
    ∀ (l : List PQEntry), (∀ e ∈ l, e.fv.isSome) → PqSortedF l →
    PqSortedF (insertByF x l) := by
  intro l
  induction l with
  | nil => intro _ _; simp [insertByF, PqSortedF]
  | cons y ys ih =>
    intro hall hs
    obtain ⟨hy, hys⟩ := List.pairwise_cons.mp hs
    unfold insertByF
    split_ifs with hxy
    · refine List.Pairwise.cons ?_ hs
      intro z hz
      rcases List.mem_cons.mp hz with rfl | hz
      · exact hxy
      · exact fLe_trans _ _ _ (hall y (List.mem_cons_self _ _)) hxy (hy z hz)
    · have hxy' : fLe x.fv y.fv = false := by
        revert hxy; cases (fLe x.fv y.fv) <;> simp
      refine List.Pairwise.cons ?_ (ih (fun e he => hall e (List.mem_cons_of_mem _ he)) hys)
      intro z hz
      rcases (mem_insertByF x ys z).mp hz with rfl | hz
      · exact fLe_of_not _ _ hxy'
      · exact hy z hz

theorem mem_sortByF : ∀ (l : List PQEntry) (e : PQEntry),
    e ∈ sortByF l ↔ e ∈ l := by
  intro l
  induction l with
  | nil => intro e; simp [sortByF]
  | cons y ys ih =>
    intro e
    show e ∈ insertByF y (sortByF ys) ↔ _
    rw [mem_insertByF, ih]
    simp [List.mem_cons]

theorem pairwise_sortByF : ∀ (l : List PQEntry), (∀ e ∈ l, e.fv.isSome) →
    PqSortedF (sortByF l) := by
  intro l
  induction l with
  | nil => intro _; simp [sortByF, PqSortedF]
  | cons y ys ih =>
    intro hall
    show PqSortedF (insertByF y (sortByF ys))
    refine pairwise_insertByF y (sortByF ys) ?_ (ih ?_)
    · intro e he
      exact hall e (List.mem_cons_of_mem _ ((mem_sortByF ys e).mp he))
    · intro e he
      exact hall e (List.mem_cons_of_mem _ he)

theorem astarRelax_inv (g : Graph) (h : Heur) (node : NodeId) (cg : Int)
    (s : AStarState) (n : NodeId)
    (h1 : AllSomeF s.pq) (h2 : PqSortedF s.pq)
    (h3 : ∀ snap ∈ s.snaps, PqSortedF snap) :
    AllSomeF (astarRelax g h node cg s n).pq ∧
    PqSortedF (astarRelax g h node cg s n).pq ∧
    (∀ snap ∈ (astarRelax g h node cg s n).snaps, PqSortedF snap) := by
  unfold astarRelax
  dsimp only
  split_ifs
  · have hall : AllSomeF (s.pq ++
        [⟨n, cg + jsOrInt (jsWeight g node n) 1, some (jsOrInt (h n) 0),
          some (cg + jsOrInt (jsWeight g node n) 1 + jsOrInt (h n) 0)⟩]) := by
      intro e he
      rcases List.mem_append.mp he with he | he
      · exact h1 e he
      · rw [List.mem_singleton.mp he]
        rfl
    refine ⟨?_, pairwise_sortByF _ hall, h3⟩
    intro e he
    exact hall e ((mem_sortByF _ e).mp he)
  · exact ⟨h1, h2, h3⟩

theorem astarRelax_foldl_inv (g : Graph) (h : Heur) (node : NodeId) (cg : Int) :
    ∀ (l : List NodeId) (s : AStarState),
    AllSomeF s.pq → PqSortedF s.pq → (∀ snap ∈ s.snaps, PqSortedF snap) →
    AllSomeF (List.foldl (astarRelax g h node cg) s l).pq ∧
    PqSortedF (List.foldl (astarRelax g h node cg) s l).pq ∧
    (∀ snap ∈ (List.foldl (astarRelax g h node cg) s l).snaps, PqSortedF snap) := by
  intro l
  induction l with
  | nil => exact fun s h1 h2 h3 => ⟨h1, h2, h3⟩
  | cons n l ih =>
    intro s h1 h2 h3
    obtain ⟨r1, r2, r3⟩ := astarRelax_inv g h node cg s n h1 h2 h3
    exact ih _ r1 r2 r3

theorem astarPop_inv (node : NodeId) (s : AStarState)
    (h1 : AllSomeF s.pq) (h2 : PqSortedF s.pq)
    (h3 : ∀ snap ∈ s.snaps, PqSortedF snap) :
    AllSomeF (astarPop node s).pq ∧ PqSortedF (astarPop node s).pq ∧
    (∀ snap ∈ (astarPop node s).snaps, PqSortedF snap) := by
  have ht : PqSortedF s.pq.tail :=
    List.Pairwise.sublist (List.tail_sublist _) h2
  refine ⟨?_, ht, ?_⟩
  · intro e he
    exact h1 e ((List.tail_sublist _).mem he)
  · intro snap hs
    rcases List.mem_append.mp hs with hs | hs
    · exact h3 snap hs
    · rw [List.mem_singleton.mp hs]
      exact ht

theorem astarExpand_inv (g : Graph) (h : Heur) (node : NodeId) (cg : Int)
    (s1 : AStarState)
    (h1 : AllSomeF s1.pq) (h2 : PqSortedF s1.pq)
    (h3 : ∀ snap ∈ s1.snaps, PqSortedF snap) :
    AllSomeF (astarExpand g h node cg s1).pq ∧
    PqSortedF (astarExpand g h node cg s1).pq ∧
    (∀ snap ∈ (astarExpand g h node cg s1).snaps, PqSortedF snap) := by
  unfold astarExpand
  dsimp only
  split_ifs
  · exact ⟨h1, h2, h3⟩
  · obtain ⟨r1, r2, r3⟩ := astarRelax_foldl_inv g h node cg
      ((jsKeys g node).filter (fun m => !(s1.visited.contains m)))
      { s1 with steps := s1.steps ++ [.evalNeighbors s1.stepCount node
          ((jsKeys g node).filter (fun m => !(s1.visited.contains m)))] }
      h1 h2 h3
    exact ⟨r1, r2, fun snap hs =>
      Or.elim (List.mem_append.mp hs) (fun hmem => r3 snap hmem)
        (fun hmem => by rw [List.mem_singleton.mp hmem]; exact r2)⟩

theorem astar_inv (g : Graph) (h : Heur) :
    ∀ (xs : List NodeId) (first : Bool) (s : AStarState),
    AllSomeF s.pq → PqSortedF s.pq → (∀ snap ∈ s.snaps, PqSortedF snap) →
    AllSomeF (astarLoop g h first s xs).pq ∧
    PqSortedF (astarLoop g h first s xs).pq ∧
    (∀ snap ∈ (astarLoop g h first s xs).snaps, PqSortedF snap) := by
  intro xs
  induction xs with
  | nil => exact fun first s h1 h2 h3 => ⟨h1, h2, h3⟩
  | cons node rest ih =>
    intro first s h1 h2 h3
    simp only [astarLoop]
    cases first with
    | true =>
      try simp only [reduceIte]
      split
      · exact ⟨h1, h2, h3⟩
      · obtain ⟨e1, e2, e3⟩ := astarExpand_inv g h node
          (jsOrInt (List.lookup node s.gScores) 0)
          { s with visited := visitedAdd s.visited node } h1 h2 h3
        exact ih false _ e1 e2 e3
    | false =>
      try simp only [reduceIte]
      obtain ⟨p1, p2, p3⟩ := astarPop_inv node
        { s with visited := visitedAdd s.visited node } h1 h2 h3
      split
      · exact ⟨p1, p2, p3⟩
      · obtain ⟨e1, e2, e3⟩ := astarExpand_inv g h node
          (jsOrInt (List.lookup node s.gScores) 0)
          (astarPop node { s with visited := visitedAdd s.visited node })
          p1 p2 p3
        exact ih false _ e1 e2 e3

theorem astarRelax_visited (g : Graph) (h : Heur) (node : NodeId) (cg : Int)
    (s : AStarState) (n : NodeId) :
    (astarRelax g h node cg s n).visited = s.visited := by
  unfold astarRelax
  dsimp only
  split_ifs <;> rfl

theorem astarRelax_foldl_visited (g : Graph) (h : Heur) (node : NodeId)
    (cg : Int) : ∀ (l : List NodeId) (s : AStarState),
    (List.foldl (astarRelax g h node cg) s l).visited = s.visited := by
  intro l
  induction l with
  | nil => intro s; rfl
  | cons n l ih =>
    intro s
    rw [List.foldl_cons, ih, astarRelax_visited]

theorem astarExpand_visited (g : Graph) (h : Heur) (node : NodeId) (cg : Int)
    (s1 : AStarState) :
    (astarExpand g h node cg s1).visited = s1.visited := by
  unfold astarExpand
  dsimp only
  split_ifs
  · rfl
  · exact astarRelax_foldl_visited g h node cg _ _

theorem astar_visited_mem (g : Graph) (h : Heur) :
    ∀ (xs : List NodeId) (first : Bool) (s : AStarState) (x : NodeId),
    x ∈ (astarLoop g h first s xs).visited ↔
      x ∈ s.visited ∨ x ∈ takeToGoal xs := by
  intro xs
  induction xs with
  | nil => intro first s x; simp [astarLoop, takeToGoal]
  | cons node rest ih =>
    intro first s x
    simp only [astarLoop]
    by_cases hb : (node == "B") = true
    · simp only [hb, if_true, takeToGoal]
      split <;> simp [astarGoal, astarPop, mem_visitedAdd]
    · have hb' : (node == "B") = false := by
        revert hb; cases (node == "B") <;> simp
      simp only [hb', Bool.false_eq_true, if_false, takeToGoal]
      rw [ih, astarExpand_visited]
      split <;>
        simp [astarPop, mem_visitedAdd, List.mem_cons] <;> tauto

theorem mem_specStableInsert (x : PQEntry) :
    ∀ (l : List PQEntry) (e : PQEntry),
    e ∈ specStableInsert x l ↔ e = x ∨ e ∈ l := by
  intro l
  induction l with
  | nil => intro e; simp [specStableInsert]
  | cons y ys ih =>
    intro e
    unfold specStableInsert
    split_ifs <;> simp [ih, List.mem_cons] <;> tauto

theorem insertByF_head_le (y : PQEntry) :
    ∀ (l : List PQEntry), (∀ z ∈ l, fLe y.fv z.fv = true) →
    insertByF y l = y :: l := by
  intro l hl
  cases l with
  | nil => rfl
  | cons z zs =>
    unfold insertByF
    rw [if_pos (hl z (List.mem_cons_self _ _))]

theorem specStableInsert_high (x : PQEntry) :
    ∀ (l : List PQEntry), (∀ z ∈ l, fLe z.fv x.fv = false) →
    specStableInsert x l = x :: l := by
  intro l hl
  cases l with
  | nil => rfl
  | cons z zs =>
    unfold specStableInsert
    rw [if_neg]
    rw [hl z (List.mem_cons_self _ _)]
    simp

/-- The source's push-then-stable-sort on an already sorted queue places the
new entry after all entries tying with it on f and before the first strictly
larger one: exactly the spec's "ties broken by queue insertion order". -/
theorem sortByF_push (x : PQEntry) :
    ∀ (l : List PQEntry), (∀ e ∈ l, e.fv.isSome) → x.fv.isSome →
    PqSortedF l → sortByF (l ++ [x]) = specStableInsert x l := by
  intro l
  induction l with
  | nil => intro _ _ _; rfl
  | cons y ys ih =>
    intro hall hx hs
    obtain ⟨hy_le, hys⟩ := List.pairwise_cons.mp hs
    show insertByF y (sortByF (ys ++ [x])) = specStableInsert x (y :: ys)
    rw [ih (fun e he => hall e (List.mem_cons_of_mem _ he)) hx hys]
    by_cases hyx : fLe y.fv x.fv = true
    · have hgoal : specStableInsert x (y :: ys) = y :: specStableInsert x ys := by
        simp only [specStableInsert]
        rw [if_pos hyx]
      rw [hgoal]
      refine insertByF_head_le y _ ?_
      intro z hz
      rcases (mem_specStableInsert x ys z).mp hz with rfl | hz2
      · exact hyx
      · exact hy_le z hz2
    · have hyx' : fLe y.fv x.fv = false := by
        revert hyx; cases (fLe y.fv x.fv) <;> simp
      have hzs : ∀ z ∈ ys, fLe z.fv x.fv = false := by
        intro z hz
        have hyz := hy_le z hz
        have hxz : x.fv.isSome := hx
        have hyz2 : y.fv.isSome := hall y (List.mem_cons_self _ _)
        have hzz : z.fv.isSome :=
          hall z (List.mem_cons_of_mem _ hz)
        unfold fLe at *
        cases hx1 : x.fv <;> cases hy1 : y.fv <;> cases hz1 : z.fv <;>
          simp_all <;> omega
      have hgoal : specStableInsert x (y :: ys) = x :: y :: ys := by
        simp only [specStableInsert, hyx', Bool.false_eq_true, if_false]
      rw [hgoal, specStableInsert_high x ys hzs]
      show insertByF y (x :: ys) = x :: y :: ys
      simp only [insertByF, hyx', Bool.false_eq_true, if_false]
      rw [insertByF_head_le y ys hy_le]

/-- C4: in the A* reconstruction (with a numeric heuristic entry for the
start node, so every f-value in play is a number and the JS sort comparator
is consistent), every emitted frontier snapshot is ascending by f-value, with
ties kept in queue insertion order — the source's push-then-stable-sort on
the already sorted queue equals the spec's stable insert after all ties — and
a node is in the visited set exactly when it is one of the popped explored
nodes (the processed prefix up to the first goal occurrence): insertion into
the queue never marks a node visited. -/
theorem C4_astar_sorted_lazy_visited (g : Graph) (h : Heur)
    (explored : List NodeId) (hA : (h "A").isSome) :
    (∀ snap ∈ (astarRun g h explored).snaps, PqSortedF snap) ∧
    (∀ x : NodeId, x ∈ (astarRun g h explored).visited ↔
      x ∈ takeToGoal explored) ∧
    (∀ (l : List PQEntry) (x : PQEntry), (∀ e ∈ l, e.fv.isSome) →
      x.fv.isSome → PqSortedF l → sortByF (l ++ [x]) = specStableInsert x l) := by
  refine ⟨?_, ?_, fun l x h1 h2 h3 => sortByF_push x l h1 h2 h3⟩
  · have h1 : AllSomeF (astarInit h).pq := by
      intro e he
      rw [List.mem_singleton.mp he]
      exact hA
    have h2 : PqSortedF (astarInit h).pq := by
      simp [astarInit, PqSortedF]
    have h3 : ∀ snap ∈ (astarInit h).snaps, PqSortedF snap := by
      intro snap hs
      rw [List.mem_singleton.mp hs]
      simp [PqSortedF]
    exact (astar_inv g h explored true (astarInit h) h1 h2 h3).2.2
  · intro x
    rw [astarRun, astar_visited_mem]
    simp [astarInit]

/-- Witness for C4 on the scenario maze with heuristic {A:2,B:1,C:1,D:0} and
`explored = [A, B]`: the post-pop snapshot `[B(f=2), C(f=2)]` is sorted, and
A is visited exactly as a processed node. -/
theorem C4_witness :
    PqSortedF [⟨"B", 1, some 1, some 2⟩, ⟨"C", 1, some 1, some 2⟩] ∧
    ("A" ∈ (astarRun mazeG mazeH ["A", "B"]).visited ↔
      "A" ∈ takeToGoal ["A", "B"]) := by
  have hh := C4_astar_sorted_lazy_visited mazeG mazeH ["A", "B"] (by decide)
  exact ⟨hh.1 [⟨"B", 1, some 1, some 2⟩, ⟨"C", 1, some 1, some 2⟩] (by decide),
    hh.2.1 "A"⟩

/-! ### Default-filling invariance (for C5) -/

theorem bfsExpand_congr (g g' : Graph) (hk : ∀ n, jsKeys g' n = jsKeys g n)
    (node : NodeId) (s1 : SimState) :
    bfsExpand g' node s1 = bfsExpand g node s1 := by
  unfold bfsExpand
  rw [hk]

theorem bfsLoop_congr (g g' : Graph) (hk : ∀ n, jsKeys g' n = jsKeys g n) :
    ∀ (xs : List NodeId) (first : Bool) (s : SimState),
    bfsLoop g' first s xs = bfsLoop g first s xs := by
  intro xs
  induction xs with
  | nil => intro first s; rfl
  | cons node rest ih =>
    intro first s
    simp only [bfsLoop, bfsExpand_congr g g' hk]
    split
    · rfl
    · exact ih false _

theorem dfsExpand_congr (g g' : Graph) (hk : ∀ n, jsKeys g' n = jsKeys g n)
    (node : NodeId) (s1 : SimState) :
    dfsExpand g' node s1 = dfsExpand g node s1 := by
  unfold dfsExpand
  rw [hk]

theorem dfsLoop_congr (g g' : Graph) (hk : ∀ n, jsKeys g' n = jsKeys g n) :
    ∀ (xs : List NodeId) (first : Bool) (s : SimState),
    dfsLoop g' first s xs = dfsLoop g first s xs := by
  intro xs
  induction xs with
  | nil => intro first s; rfl
  | cons node rest ih =>
    intro first s
    simp only [dfsLoop, dfsExpand_congr g g' hk]
    split
    · rfl
    · exact ih false _

theorem astarRelax_congr (g g' : Graph) (h h' : Heur)
    (hw : ∀ n m, jsOrInt (jsWeight g' n m) 1 = jsOrInt (jsWeight g n m) 1)
    (hh : ∀ n, jsOrInt (h' n) 0 = jsOrInt (h n) 0)
    (node : NodeId) (cg : Int) :
    astarRelax g' h' node cg = astarRelax g h node cg := by
  funext s n
  simp only [astarRelax, hw, hh]

theorem astarExpand_congr (g g' : Graph) (h h' : Heur)
    (hk : ∀ n, jsKeys g' n = jsKeys g n)
    (hw : ∀ n m, jsOrInt (jsWeight g' n m) 1 = jsOrInt (jsWeight g n m) 1)
    (hh : ∀ n, jsOrInt (h' n) 0 = jsOrInt (h n) 0)
    (node : NodeId) (cg : Int) (s1 : AStarState) :
    astarExpand g' h' node cg s1 = astarExpand g h node cg s1 := by
  unfold astarExpand
  rw [hk, astarRelax_congr g g' h h' hw hh]

theorem astarLoop_congr (g g' : Graph) (h h' : Heur)
    (hk : ∀ n, jsKeys g' n = jsKeys g n)
    (hw : ∀ n m, jsOrInt (jsWeight g' n m) 1 = jsOrInt (jsWeight g n m) 1)
    (hh : ∀ n, jsOrInt (h' n) 0 = jsOrInt (h n) 0) :
    ∀ (xs : List NodeId) (first : Bool) (s : AStarState),
    astarLoop g' h' first s xs = astarLoop g h first s xs := by
  intro xs
  induction xs with
  | nil => intro first s; rfl
  | cons node rest ih =>
    intro first s
    simp only [astarLoop, astarExpand_congr g g' h h' hk hw hh]
    split
    · rfl
    · exact ih false _

theorem jsKeys_totalGraph (g : Graph) (n : NodeId) :
    jsKeys (totalGraph g) n = jsKeys g n := by
  simp [jsKeys, totalGraph]

theorem lookup_total :
    ∀ (l : List (NodeId × Option Int)) (m : NodeId),
    (l.map (fun p => (p.1, some (jsOrInt p.2 1)))).lookup m =
      (l.lookup m).map (fun w => some (jsOrInt w 1)) := by
  intro l
  induction l with
  | nil => intro m; rfl
  | cons p l ih =>
    intro m
    simp only [List.map_cons, List.lookup]
    split <;> simp [ih]

theorem jsOrInt_some (o : Option Int) (d : Int) :
    jsOrInt (some (jsOrInt o d)) d = jsOrInt o d := by
  cases o with
  | none =>
    simp only [jsOrInt]
    split_ifs <;> rfl
  | some v =>
    simp only [jsOrInt]
    split_ifs <;> simp_all

theorem jsOrInt_weight_total (g : Graph) (n m : NodeId) :
    jsOrInt (jsWeight (totalGraph g) n m) 1 = jsOrInt (jsWeight g n m) 1 := by
  unfold jsWeight totalGraph
  simp only [Option.getD_some]
  rw [lookup_total]
  cases hl : ((g n).getD []).lookup m with
  | none => rfl
  | some w =>
    show jsOrInt (some (jsOrInt w 1)) 1 = jsOrInt w 1
    exact jsOrInt_some w 1

theorem jsOrInt_heur_total (h : Heur) (n : NodeId) :
    jsOrInt (totalHeur h n) 0 = jsOrInt (h n) 0 := by
  unfold totalHeur
  exact jsOrInt_some (h n) 0

theorem totalHeur_start (h : Heur) (hA : (h "A").isSome) :
    totalHeur h "A" = h "A" := by
  obtain ⟨v, hv⟩ := Option.isSome_iff_exists.mp hA
  unfold totalHeur
  rw [hv]
  simp only [jsOrInt]
  split_ifs <;> simp_all

/-- C5, amended: the simulator is total — for every input, every policy, the
step list always ends with the final summary lines — and missing data is
filled with the documented defaults: running on the graph with every missing
adjacency entry replaced by the empty object and every missing (or zero,
`|| 1`) edge weight replaced by 1 gives identical BFS/DFS/A* runs, and the
same holds for the heuristic table with missing entries replaced by 0 —
PROVIDED the start node has a heuristic entry; the start node's lookup at
initialization is raw and undefaulted (see the counterexample). -/
theorem C5_amended_defaults (g : Graph) (h : Heur)
    (explored path : List NodeId) :
    (∀ alg : String, ((generateAlgorithmSteps alg g h explored path).1.getLast? =
      some (.exploredTotal explored.length))) ∧
    bfsRun (totalGraph g) explored = bfsRun g explored ∧
    dfsRun (totalGraph g) explored = dfsRun g explored ∧
    ((h "A").isSome →
      astarRun (totalGraph g) (totalHeur h) explored = astarRun g h explored) := by
  refine ⟨?_, ?_, ?_, ?_⟩
  · intro alg
    unfold generateAlgorithmSteps
    dsimp only
    rw [show [StepLine.finalPath path, StepLine.pathLen path.length,
        StepLine.exploredTotal explored.length] =
      [StepLine.finalPath path, StepLine.pathLen path.length] ++
        [StepLine.exploredTotal explored.length] from rfl,
      ← List.append_assoc, List.getLast?_concat]
  · exact bfsLoop_congr g (totalGraph g) (jsKeys_totalGraph g) explored true bfsInit
  · exact dfsLoop_congr g (totalGraph g) (jsKeys_totalGraph g) explored true dfsInit
  · intro hA
    unfold astarRun
    rw [show astarInit (totalHeur h) = astarInit h by
      unfold astarInit
      rw [totalHeur_start h hA]]
    exact astarLoop_congr g (totalGraph g) h (totalHeur h) (jsKeys_totalGraph g)
      (jsOrInt_weight_total g) (jsOrInt_heur_total h) explored true (astarInit h)

/-- Witness for C5 on the scenario maze (whose heuristic table has an entry
for the start node): the A* run on the default-filled graph and heuristic
equals the original one. -/
theorem C5_witness :
    astarRun (totalGraph mazeG) (totalHeur mazeH) ["A", "C"] =
      astarRun mazeG mazeH ["A", "C"] :=
  (C5_amended_defaults mazeG mazeH ["A", "C"] []).2.2.2 (by decide)
